import Mathlib

/-!
Verification of the gitmirror repository-sync core
(`src/cmd/gitmirror/main.go`) against its natural-language specification.

The Go code is shallowly embedded: string-splitting (`strings.Split` with a
one-character separator), path joining and cleaning (`path/filepath.Join`,
which calls `Clean`), the per-repository sync procedure (`initRepos`'s worker
body together with `clone`, `fetch`, `addRemote`, `push`) as a function from
an error environment to the list of observable events (log lines, subprocess
invocations, filesystem operations, context acquisition/cancellation), and
the worker pool of `initRepos` as a small-step transition system.
-/

namespace Gitmirror

/-! ## Splitting on a character: `strings.Split(s, sep)` for a one-rune sep -/

/-- `strings.Split` of a character list on a single separator character.
Always returns a nonempty list; splitting a list that does not contain the
separator returns the one-element list holding the input. -/
def splitOnChar (c : Char) : List Char → List (List Char)
  | [] => [[]]
  | x :: xs =>
    if x = c then [] :: splitOnChar c xs
    else (splitOnChar c xs).modifyHead (fun h => x :: h)

theorem splitOnChar_ne_nil (c : Char) (l : List Char) : splitOnChar c l ≠ [] := by
  induction l with
  | nil => simp [splitOnChar]
  | cons x xs ih =>
    by_cases hx : x = c
    · simp [splitOnChar, hx]
    · simp only [splitOnChar, if_neg hx]
      cases h : splitOnChar c xs with
      | nil => exact absurd h ih
      | cons a t => simp [List.modifyHead]

theorem splitOnChar_of_not_mem (c : Char) (l : List Char) (h : c ∉ l) :
    splitOnChar c l = [l] := by
  induction l with
  | nil => rfl
  | cons x xs ih =>
    have hx : x ≠ c := fun he => h (he ▸ List.mem_cons_self x xs)
    have hxs : c ∉ xs := fun hm => h (List.mem_cons_of_mem x hm)
    simp [splitOnChar, hx, ih hxs, List.modifyHead]

theorem splitOnChar_append (c : Char) (xs ys : List Char) :
    splitOnChar c (xs ++ c :: ys) = splitOnChar c xs ++ splitOnChar c ys := by
  induction xs with
  | nil => simp [splitOnChar]
  | cons x t ih =>
    by_cases hx : x = c
    · simp [splitOnChar, hx, ih]
    · simp only [List.cons_append, splitOnChar, if_neg hx]
      rw [List.append_eq, ih]
      cases h : splitOnChar c t with
      | nil => exact absurd h (splitOnChar_ne_nil c t)
      | cons a q => simp [List.modifyHead]

theorem length_splitOnChar_of_mem (c : Char) (l : List Char) (h : c ∈ l) :
    2 ≤ (splitOnChar c l).length := by
  rcases List.append_of_mem h with ⟨xs, ys, rfl⟩
  rw [splitOnChar_append]
  have h1 := splitOnChar_ne_nil c xs
  have h2 := splitOnChar_ne_nil c ys
  rw [List.length_append]
  have l1 : 1 ≤ (splitOnChar c xs).length := Nat.one_le_iff_ne_zero.mpr
    (by simpa using h1)
  have l2 : 1 ≤ (splitOnChar c ys).length := Nat.one_le_iff_ne_zero.mpr
    (by simpa using h2)
  omega

theorem not_mem_of_mem_splitOnChar (c : Char) (l : List Char) :
    ∀ p ∈ splitOnChar c l, c ∉ p := by
  induction l with
  | nil => intro p hp; simp [splitOnChar] at hp; simp [hp]
  | cons x xs ih =>
    intro p hp
    by_cases hx : x = c
    · simp only [splitOnChar, if_pos hx, List.mem_cons] at hp
      rcases hp with rfl | hp
      · simp
      · exact ih p hp
    · simp only [splitOnChar, if_neg hx] at hp
      cases h : splitOnChar c xs with
      | nil => exact absurd h (splitOnChar_ne_nil c xs)
      | cons a t =>
        rw [h] at hp
        simp only [List.modifyHead, List.mem_cons] at hp
        rcases hp with rfl | hp
        · intro hc
          rcases List.mem_cons.mp hc with rfl | hc
          · exact hx rfl
          · exact ih a (h ▸ List.mem_cons_self a t) hc
        · exact ih p (h ▸ List.mem_cons_of_mem a hp)

/-! ## Joining with a separator: `strings.Join(parts, sep)` for a one-rune sep -/

/-- Interleave the separator character between the parts
(`strings.Join` on character lists). -/
def joinSep (c : Char) : List (List Char) → List Char
  | [] => []
  | [p] => p
  | p :: q :: t => p ++ c :: joinSep c (q :: t)

theorem splitOnChar_joinSep (c : Char) (l : List (List Char)) (hne : l ≠ [])
    (hfree : ∀ p ∈ l, c ∉ p) : splitOnChar c (joinSep c l) = l := by
  induction l with
  | nil => exact absurd rfl hne
  | cons p t ih =>
    cases t with
    | nil =>
      simp only [joinSep]
      exact splitOnChar_of_not_mem c p (hfree p (List.mem_cons_self p []))
    | cons q u =>
      simp only [joinSep]
      rw [splitOnChar_append]
      rw [splitOnChar_of_not_mem c p (hfree p (List.mem_cons_self p _))]
      rw [ih (by simp) (fun r hr => hfree r (List.mem_cons_of_mem p hr))]
      rfl

/-! ## `path/filepath.Clean` and `path/filepath.Join` (unix separators)

`filepath.Join(elem...)` in Go joins the elements from the first non-empty
one with "/" (`strings.Join`) and passes the result through `Clean`.
`Clean` applies the Plan 9 lexical simplification: drop empty and "."
elements, resolve ".." against the preceding element (or keep it, for
relative paths with nothing left to pop; or drop it, at the root of a
rooted path). `cleanParts` is the element-level form of that loop. -/

/-- One step of `Clean`'s element loop: `acc` is the output stack
(most recent element first). -/
def dotdotStep (rooted : Bool) : List (List Char) → List (List Char)
  | [] => if rooted then [] else [['.', '.']]
  | a :: rest => if a = ['.', '.'] then ['.', '.'] :: a :: rest else rest

def cleanStep (rooted : Bool) (acc : List (List Char)) (p : List Char) :
    List (List Char) :=
  if p = [] ∨ p = ['.'] then acc
  else if p = ['.', '.'] then dotdotStep rooted acc
  else p :: acc

/-- `Clean`'s element loop over all elements of the path. -/
def cleanParts (rooted : Bool) (ps : List (List Char)) : List (List Char) :=
  (ps.foldl (cleanStep rooted) []).reverse

/-- `filepath.Clean` on a character list: `rooted` is "the path starts
with '/'"; a rooted result keeps its leading '/', an empty relative
result becomes ".". -/
def cleanList (l : List Char) : List Char :=
  if l = [] then ['.']
  else if l.head? = some '/' then
    '/' :: joinSep '/' (cleanParts true (splitOnChar '/' l))
  else if cleanParts false (splitOnChar '/' l) = [] then ['.']
  else joinSep '/' (cleanParts false (splitOnChar '/' l))

/-- `filepath.Clean` on strings. -/
def Clean (s : String) : String := String.mk (cleanList s.toList)

/-- `strings.Join(elems, "/")`. -/
def goJoinRest : List String → String
  | [] => ""
  | [e] => e
  | e :: f :: t => e ++ "/" ++ goJoinRest (f :: t)

/-- `filepath.Join(elems...)`: drop leading empty elements, join the rest
with "/", and `Clean` the result; all-empty input gives "". -/
def filepathJoin (elems : List String) : String :=
  match elems.dropWhile (fun e => e = "") with
  | [] => ""
  | es => Clean (goJoinRest es)

/-! ## Repository descriptors (`repo` struct and the loop in `main`) -/

/-- The `repo` struct of `main.go`. -/
structure repo where
  root : String
  name : String
  source : String
  destination : String
deriving DecidableEq, Repr

/-- One entry of the unmarshalled `repos.yaml` (`RepoMap`). -/
structure RepoMap where
  Name : String
  ADO : String
  BitBucket : String
deriving DecidableEq, Repr

/-- The descriptor construction in `main`'s loop:
`root = filepath.Join(cacheDir, r.Name)`, the other fields copied. -/
def repoOfMap (cacheDir : String) (r : RepoMap) : repo :=
  { root := filepathJoin [cacheDir, r.Name]
    name := r.Name
    source := r.ADO
    destination := r.BitBucket }

/-! ## Remote-name derivation (`addRemote` / `push`)

`nameAt := strings.Split(r.destination, "@"); name := strings.Split(nameAt[1], ":")[0]`.
Indexing `nameAt[1]` panics (index out of range) when the split has fewer
than two elements, i.e. when the destination contains no '@'; the panic is
modelled by `none`. -/

/-- The remote name computed by `addRemote` and `push`; `none` models the
index-out-of-range panic of `nameAt[1]`. -/
def remoteNameOf (destination : String) : Option String :=
  match splitOnChar '@' destination.toList with
  | _ :: second :: _ => some (String.mk ((splitOnChar ':' second).headD []))
  | _ => none

theorem remoteNameOf_eq_none (destination : String)
    (h : '@' ∉ destination.toList) : remoteNameOf destination = none := by
  unfold remoteNameOf
  rw [splitOnChar_of_not_mem '@' destination.toList h]

theorem remoteNameOf_isSome (destination : String)
    (h : '@' ∈ destination.toList) : (remoteNameOf destination).isSome := by
  unfold remoteNameOf
  have h2 := length_splitOnChar_of_mem '@' destination.toList h
  cases hs : splitOnChar '@' destination.toList with
  | nil => exact absurd hs (splitOnChar_ne_nil _ _)
  | cons a t =>
    cases t with
    | nil => rw [hs] at h2; simp at h2
    | cons b u => simp

/-! ## Observable events of one repository's sync

Each `log.Printf` call, subprocess invocation (`cmd.Start`), filesystem
operation, and context acquisition/cancellation of the worker body in
`initRepos` and of `clone`, `fetch`, `addRemote`, `push` is one event. -/

inductive Event where
  | statMarker (path : String)
  | logCantReuse (root : String)
  | logTryingReuse (root : String)
  | logFailedReuse (root : String)
  | removeAll (root : String) (ok : Bool)
  | ctxAcquire (seconds : Nat)
  | ctxCancel
  | logCloning (name root : String)
  | cloneStart (source root : String)
  | logCloneStartErr (name : String)
  | logCloneWaitErr (name : String)
  | logFetching (name root : String)
  | fetchStart (root : String)
  | logFetchStartErr (name : String)
  | logFetchWaitErr (name : String)
  | mkdirRemotes (root : String) (ok : Bool)
  | writeFile (path content : String) (ok : Bool)
  | logPushing (name root : String)
  | pushStart (root remoteName : String)
  | logPushStartErr (name : String)
  | logPushWaitErr (name : String)
  | panic
deriving DecidableEq, Repr

/-- Which events are `log.Printf` records (the observable log stream). -/
def Event.isLog : Event → Bool
  | .logCantReuse _ => true
  | .logTryingReuse _ => true
  | .logFailedReuse _ => true
  | .logCloning _ _ => true
  | .logCloneStartErr _ => true
  | .logCloneWaitErr _ => true
  | .logFetching _ _ => true
  | .logFetchStartErr _ => true
  | .logFetchWaitErr _ => true
  | .logPushing _ _ => true
  | .logPushStartErr _ => true
  | .logPushWaitErr _ => true
  | _ => false

def Event.isCtxAcquire : Event → Bool
  | .ctxAcquire _ => true
  | _ => false

def Event.isCtxCancel : Event → Bool
  | .ctxCancel => true
  | _ => false

def Event.isFetchInvocation : Event → Bool
  | .fetchStart _ => true
  | _ => false

/-- Events that touch the push destination or the remote-registration area:
the `MkdirAll`/`WriteFile` of `addRemote` and the push subprocess. -/
def Event.isMirrorSideEffect : Event → Bool
  | .mkdirRemotes _ _ => true
  | .writeFile _ _ _ => true
  | .pushStart _ _ => true
  | _ => false

def Event.isPanic : Event → Bool
  | .panic => true
  | _ => false

/-- The log records of a trace. -/
def logsOf (tr : List Event) : List Event := tr.filter Event.isLog

/-- Sequencing that stops at a panic: if the first stage panicked the
program crashed and the second stage never runs. -/
def andThen (a b : List Event) : List Event :=
  if a.any Event.isPanic then a else a ++ b

/-- Failure environment for one repository's sync: which of the external
operations fail. The two `fetch` calls of the worker body are distinct
invocations with independent outcomes. `mirrorFlag` is `*flagMirror`. -/
structure SyncEnv where
  statOk : Bool
  probeFetchStartErr : Bool
  probeFetchWaitErr : Bool
  removeAllErr : Bool
  cloneStartErr : Bool
  cloneWaitErr : Bool
  mainFetchStartErr : Bool
  mainFetchWaitErr : Bool
  mkdirErr : Bool
  writeErr : Bool
  pushStartErr : Bool
  pushWaitErr : Bool
  mirrorFlag : Bool
deriving DecidableEq, Repr

/-- Events of `clone(r)`: acquire a 30-second timeout context (cancel
deferred), log, start `git clone --mirror <source> <root>`; a start error
and a wait error are each logged; the deferred cancel runs at return. -/
def cloneEvents (startErr waitErr : Bool) (r : repo) : List Event :=
  [Event.ctxAcquire 30, Event.logCloning r.name r.root,
    Event.cloneStart r.source r.root] ++
  (if startErr then [Event.logCloneStartErr r.name] else []) ++
  (if waitErr then [Event.logCloneWaitErr r.name] else []) ++
  [Event.ctxCancel]

/-- Events of `fetch(r)`: acquire a 30-second timeout context (cancel
deferred), log, start `git fetch --prune origin` in `r.root`; on a start
error the function logs and returns early (the deferred cancel still
runs); a wait error is logged. The second component is the returned
`error` (`true` = non-nil). -/
def fetchEvents (startErr waitErr : Bool) (r : repo) : List Event × Bool :=
  ([Event.ctxAcquire 30, Event.logFetching r.name r.root,
      Event.fetchStart r.root] ++
    (if startErr then [Event.logFetchStartErr r.name, Event.ctxCancel]
     else (if waitErr then [Event.logFetchWaitErr r.name] else []) ++
       [Event.ctxCancel]),
   startErr || waitErr)

/-- Events of `addRemote(r)`: `MkdirAll(root/remotes)` (on error: silent
early return), then the remote file content is built and the file
`Join(root, "remotes", name)` written (`WriteFile`'s error is discarded);
deriving `name` panics when the destination has no '@'. -/
def addRemoteEvents (env : SyncEnv) (r : repo) : List Event :=
  if env.mkdirErr then [Event.mkdirRemotes r.root false]
  else
    let remote := "URL: " ++ r.destination ++ "\n" ++
      "Push: +refs/heads/*:refs/heads/*\n" ++
      "Push: +refs/tags/*:refs/tags/*\n"
    match remoteNameOf r.destination with
    | none => [Event.mkdirRemotes r.root true, Event.panic]
    | some name =>
        [Event.mkdirRemotes r.root true,
          Event.writeFile (filepathJoin [r.root, "remotes", name]) remote
            (!env.writeErr)]

/-- Events of `push(r)`: acquire a 30-second timeout context (cancel
deferred), derive the remote name (panics without '@'), log, start
`git push --mirror --force <name>` in `r.root`; start and wait errors are
each logged (no early return); the deferred cancel runs at return. -/
def pushEvents (env : SyncEnv) (r : repo) : List Event :=
  match remoteNameOf r.destination with
  | none => [Event.ctxAcquire 30, Event.panic]
  | some name =>
      [Event.ctxAcquire 30, Event.logPushing r.name r.root,
        Event.pushStart r.root name] ++
      (if env.pushStartErr then [Event.logPushStartErr r.name] else []) ++
      (if env.pushWaitErr then [Event.logPushWaitErr r.name] else []) ++
      [Event.ctxCancel]

/-- The reuse decision of the worker body, translated literally:
`canReuse` starts true, is demoted when `os.Stat(root/FETCH_HEAD)` errors;
inside `if canReuse`, the probe `fetch(r)`'s result is NOT bound — the
subsequent `if err != nil` re-tests the unchanged `os.Stat` error. -/
def reuseDecision (env : SyncEnv) : Bool :=
  let statErr := !env.statOk
  let canReuse := if statErr then false else true
  if canReuse then (if statErr then false else canReuse) else canReuse

/-- Events of the reuse check: the `os.Stat` probe and its log on error,
then (when tentatively reusable) the probe fetch, with the demotion log
only behind the (dead) `err != nil` re-test of the `os.Stat` error. -/
def reusePhaseEvents (env : SyncEnv) (r : repo) : List Event :=
  let statErr := !env.statOk
  let canReuse := if statErr then false else true
  (Event.statMarker (filepathJoin [r.root, "FETCH_HEAD"]) ::
    (if statErr then [Event.logCantReuse r.root] else [])) ++
  (if canReuse then
    Event.logTryingReuse r.root ::
      (fetchEvents env.probeFetchStartErr env.probeFetchWaitErr r).1 ++
      (if statErr then [Event.logFailedReuse r.root] else [])
   else [])

/-- Events of the not-reusable branch: `os.RemoveAll(r.root)` (error
discarded) and `clone(r)`; empty when the cache is reused. -/
def branchPhaseEvents (env : SyncEnv) (r : repo) : List Event :=
  if !reuseDecision env then
    Event.removeAll r.root (!env.removeAllErr) ::
      cloneEvents env.cloneStartErr env.cloneWaitErr r
  else []

/-- Events of the optional mirroring stages: `addRemote(r)` then `push(r)`
when `*flagMirror` is set (a panic in `addRemote` aborts before `push`). -/
def mirrorPhaseEvents (env : SyncEnv) (r : repo) : List Event :=
  if env.mirrorFlag then andThen (addRemoteEvents env r) (pushEvents env r)
  else []

/-- The worker body of `initRepos` for one repository: reuse check,
delete-and-clone when not reusable, one unconditional fetch, then the
optional mirroring stages. -/
def syncEvents (env : SyncEnv) (r : repo) : List Event :=
  reusePhaseEvents env r ++ branchPhaseEvents env r ++
    (fetchEvents env.mainFetchStartErr env.mainFetchWaitErr r).1 ++
    mirrorPhaseEvents env r

/-! ## The worker pool of `initRepos`

`initRepos` starts `max = 5` goroutines ranging over one unbuffered channel,
sends every descriptor, closes the channel, and returns — there is no join
(no `sync.WaitGroup`). The pool is modelled as a transition system:
a send is a rendezvous handing one descriptor to an idle worker; closing
the drained channel lets idle workers exit and is immediately followed by
`initRepos` returning (`returned`); a busy worker finishing its procedure
appends its descriptor to `completed` and becomes idle again. -/

inductive WStatus where
  | idle
  | busy (r : repo)
  | exited
deriving DecidableEq, Repr

def WStatus.isBusy : WStatus → Bool
  | .busy _ => true
  | _ => false

structure PoolState where
  pending : List repo
  closed : Bool
  returned : Bool
  workers : List WStatus
  completed : List repo
deriving DecidableEq, Repr

/-- Initial state: all descriptors pending, channel open, `max = 5`
workers blocked on the channel. -/
def initPool (rs : List repo) : PoolState :=
  { pending := rs, closed := false, returned := false
    workers := List.replicate 5 WStatus.idle, completed := [] }

/-- One step of the `initRepos` pool. -/
inductive PoolStep : PoolState → PoolState → Prop where
  | send (s : PoolState) (r : repo) (rest : List repo) (i : Nat)
      (hp : s.pending = r :: rest) (hc : s.closed = false)
      (hw : s.workers.get? i = some WStatus.idle) :
      PoolStep s { s with pending := rest,
                          workers := s.workers.set i (WStatus.busy r) }
  | close (s : PoolState)
      (hp : s.pending = []) (hc : s.closed = false) :
      PoolStep s { s with closed := true, returned := true }
  | finish (s : PoolState) (r : repo) (i : Nat)
      (hw : s.workers.get? i = some (WStatus.busy r)) :
      PoolStep s { s with workers := s.workers.set i WStatus.idle,
                          completed := s.completed ++ [r] }
  | exit (s : PoolState) (i : Nat)
      (hw : s.workers.get? i = some WStatus.idle) (hc : s.closed = true) :
      PoolStep s { s with workers := s.workers.set i WStatus.exited }

/-- Reachability of a pool state from the start of `initRepos`. -/
def PoolReachable (rs : List repo) (s : PoolState) : Prop :=
  Relation.ReflTransGen PoolStep (initPool rs) s

/-! ## Concrete test fixtures -/

/-- The all-successful environment (every external operation succeeds,
mirroring off). -/
def envAllOk : SyncEnv :=
  { statOk := true, probeFetchStartErr := false, probeFetchWaitErr := false
    removeAllErr := false, cloneStartErr := false, cloneWaitErr := false
    mainFetchStartErr := false, mainFetchWaitErr := false
    mkdirErr := false, writeErr := false
    pushStartErr := false, pushWaitErr := false, mirrorFlag := false }

/-- A concrete descriptor as built by `main` from a mapping entry. -/
def repoA : repo :=
  repoOfMap "/cache" { Name := "a", ADO := "ssh://src/a", BitBucket := "git@bb:org/a" }

/-- Auxiliary event classifications used in the statements. -/
def Event.isRemoveAll : Event → Bool
  | .removeAll _ _ => true
  | _ => false

def Event.isCloneInvocation : Event → Bool
  | .cloneStart _ _ => true
  | _ => false

/-! ## C1 -/

/-- C1: the claim says a failing probe fetch demotes `canReuse` to false and
forces delete-then-clone. In the code the probe fetch's error is discarded
(`fetch(r)` is not assigned to `err`), so the demotion branch re-tests the
`os.Stat` error, which is nil whenever the probe runs: with the marker file
present and the probe fetch failing, `canReuse` stays true and the trace
contains neither a cache deletion nor a clone, though the failed probe fetch
itself was logged. -/
theorem C1_probe_fetch_failure_is_not_demoted :
    reuseDecision { envAllOk with probeFetchWaitErr := true } = true ∧
    Event.logFetchWaitErr repoA.name ∈
      syncEvents { envAllOk with probeFetchWaitErr := true } repoA ∧
    (syncEvents { envAllOk with probeFetchWaitErr := true } repoA).all
      (fun e => !e.isRemoveAll && !e.isCloneInvocation) = true := by
  refine ⟨rfl, ?_, rfl⟩
  decide

/-! ## C2 -/

/-- The pool state after the single descriptor has been handed to worker 0
and the sync procedure for it is still running. -/
def poolMidState : PoolState :=
  { pending := [], closed := false, returned := false
    workers := [WStatus.busy repoA, WStatus.idle, WStatus.idle,
      WStatus.idle, WStatus.idle]
    completed := [] }

/-- The pool state right after `close(c)`, at which point `initRepos`
returns. -/
def poolReturnedState : PoolState :=
  { poolMidState with closed := true, returned := true }

/-- C2: the claim says the dispatcher returns only after all N procedures
have completed. `initRepos` closes the channel after the last send and
returns without joining the workers (no `sync.WaitGroup`), so with a single
descriptor the state in which `initRepos` has returned while worker 0 is
still running the procedure and nothing has completed is reachable. -/
theorem C2_dispatcher_returns_before_completion :
    PoolReachable [repoA] poolReturnedState ∧
    poolReturnedState.returned = true ∧
    poolReturnedState.workers.any WStatus.isBusy = true ∧
    poolReturnedState.completed = [] := by
  refine ⟨?_, rfl, rfl, rfl⟩
  have h1 : PoolStep (initPool [repoA]) poolMidState :=
    PoolStep.send (initPool [repoA]) repoA [] 0 rfl rfl rfl
  have h2 : PoolStep poolMidState poolReturnedState :=
    PoolStep.close poolMidState rfl rfl
  exact Relation.ReflTransGen.tail (Relation.ReflTransGen.single h1) h2

/-! ## C3 -/

/-- C3: if the marker file `FETCH_HEAD` is absent (`os.Stat` fails), the
reuse decision is false and the procedure deletes the whole cache directory
(`os.RemoveAll(r.root)`) and then clones (`git clone --mirror <source>
<root>`): the sync trace is the reuse-check phase, then the deletion
followed by the clone events, then the unconditional fetch and the optional
mirroring stages. -/
theorem C3_absent_marker_delete_then_clone (env : SyncEnv) (r : repo)
    (h : env.statOk = false) :
    reuseDecision env = false ∧
    syncEvents env r =
      reusePhaseEvents env r ++
        (Event.removeAll r.root (!env.removeAllErr) ::
          cloneEvents env.cloneStartErr env.cloneWaitErr r) ++
        ((fetchEvents env.mainFetchStartErr env.mainFetchWaitErr r).1 ++
          mirrorPhaseEvents env r) ∧
    Event.cloneStart r.source r.root ∈
      cloneEvents env.cloneStartErr env.cloneWaitErr r := by
  have hd : reuseDecision env = false := by
    simp [reuseDecision, h]
  refine ⟨hd, ?_, ?_⟩
  · simp [syncEvents, branchPhaseEvents, hd]
  · simp [cloneEvents]

/-- Witness for C3 at a concrete environment and descriptor. -/
theorem C3_witness :
    ({ envAllOk with statOk := false } : SyncEnv).statOk = false ∧
    reuseDecision { envAllOk with statOk := false } = false ∧
    Event.cloneStart repoA.source repoA.root ∈
      cloneEvents false false repoA :=
  ⟨rfl, (C3_absent_marker_delete_then_clone { envAllOk with statOk := false }
      repoA rfl).1,
    (C3_absent_marker_delete_then_clone { envAllOk with statOk := false }
      repoA rfl).2.2⟩

/-! ## C4 -/

/-- C4: the sync trace decomposes as reuse-check phase, clone-or-reuse
branch, the one unconditional fetch, then the optional mirroring stages;
the branch part (including a clone, successful or not) contains no fetch
subprocess invocation, the unconditional slot contains exactly the one
`git fetch --prune origin` invocation in `r.root` whatever the environment,
and the mirroring part contains none. -/
theorem C4_single_authoritative_fetch (env : SyncEnv) (r : repo) :
    syncEvents env r =
      reusePhaseEvents env r ++ branchPhaseEvents env r ++
        ((fetchEvents env.mainFetchStartErr env.mainFetchWaitErr r).1 ++
          mirrorPhaseEvents env r) ∧
    (fetchEvents env.mainFetchStartErr env.mainFetchWaitErr r).1.filter
        Event.isFetchInvocation = [Event.fetchStart r.root] ∧
    (branchPhaseEvents env r).filter Event.isFetchInvocation = [] ∧
    (mirrorPhaseEvents env r).filter Event.isFetchInvocation = [] := by
  obtain ⟨s, a1, a2, a3, a4, a5, a6, a7, mk, w, p1, p2, mf⟩ := env
  refine ⟨by simp [syncEvents], ?_, ?_, ?_⟩
  · cases a6 <;> cases a7 <;> rfl
  · cases s <;> cases a4 <;> cases a5 <;> rfl
  · rcases hn : remoteNameOf r.destination with _ | n <;>
      cases mf <;> cases mk <;> cases p1 <;> cases p2 <;>
      simp only [mirrorPhaseEvents, andThen, addRemoteEvents, pushEvents, hn] <;>
      rfl

/-! ## C6 -/

/-- C6: with `*flagMirror` unset the sync trace contains no push
subprocess invocation, no remote-registration file write, and no creation
of the `remotes` directory: none of the mirroring side effects occur. -/
theorem C6_mirroring_disabled_no_side_effects (env : SyncEnv) (r : repo)
    (h : env.mirrorFlag = false) :
    (syncEvents env r).all (fun e => !e.isMirrorSideEffect) = true := by
  obtain ⟨s, a1, a2, a3, a4, a5, a6, a7, mk, w, p1, p2, mf⟩ := env
  cases mf
  · cases s <;> cases a1 <;> cases a2 <;> cases a4 <;> cases a5 <;>
      cases a6 <;> cases a7 <;> rfl
  · exact Bool.noConfusion h

/-- Witness for C6 at a concrete environment and descriptor. -/
theorem C6_witness :
    envAllOk.mirrorFlag = false ∧
    (syncEvents envAllOk repoA).all (fun e => !e.isMirrorSideEffect) = true :=
  ⟨rfl, C6_mirroring_disabled_no_side_effects envAllOk repoA rfl⟩

/-! ## C10 -/

/-- A trace that acquires one 30-second timeout context as its first action
and cancels it exactly once, as its last action. -/
def scoped30 (tr : List Event) : Prop :=
  tr.head? = some (Event.ctxAcquire 30) ∧
  tr.getLast? = some Event.ctxCancel ∧
  (tr.filter Event.isCtxAcquire).length = 1 ∧
  (tr.filter Event.isCtxCancel).length = 1

/-- C10: each of `clone`, `fetch` and `push` acquires a 30-second timeout
context first and cancels it exactly once, as its final action, on every
path — including `fetch`'s early return when `cmd.Start` fails (the
deferred cancel still runs). For `push` the destination must contain '@',
otherwise the remote-name derivation panics before any subprocess runs. -/
theorem C10_timeout_scoped_cancellation (se we : Bool) (env : SyncEnv)
    (r : repo) (hd : '@' ∈ r.destination.toList) :
    scoped30 (cloneEvents se we r) ∧
    scoped30 (fetchEvents se we r).1 ∧
    scoped30 (pushEvents env r) := by
  refine ⟨?_, ?_, ?_⟩
  · cases se <;> cases we <;> exact ⟨rfl, rfl, rfl, rfl⟩
  · cases se <;> cases we <;> exact ⟨rfl, rfl, rfl, rfl⟩
  · have hs := remoteNameOf_isSome r.destination hd
    rcases hn : remoteNameOf r.destination with _ | n
    · rw [hn] at hs; exact absurd hs (by simp)
    · obtain ⟨s, a1, a2, a3, a4, a5, a6, a7, mk, w, p1, p2, mf⟩ := env
      simp only [pushEvents, hn]
      cases p1 <;> cases p2 <;> exact ⟨rfl, rfl, rfl, rfl⟩

/-- Witness for C10 at a concrete environment and descriptor. -/
theorem C10_witness :
    ('@' ∈ ("git@bb:org/a" : String).toList) ∧
    (scoped30 (cloneEvents true false repoA) ∧
      scoped30 (fetchEvents true false repoA).1 ∧
      scoped30 (pushEvents envAllOk repoA)) :=
  ⟨by decide, C10_timeout_scoped_cancellation true false envAllOk repoA (by decide)⟩

/-! ## C8 -/

/-- C8: when the destination connection string contains no '@', the
'@'-split is a one-element list, `nameAt[1]` is out of range (`none` in
the embedding), and any mirroring-enabled run panics: a panic event is in
the sync trace, raised by `addRemote`'s derivation (or, when the `remotes`
directory creation failed and `addRemote` returned early, by `push`'s). -/
theorem C8_no_at_in_destination_panics (env : SyncEnv) (r : repo)
    (hd : '@' ∉ r.destination.toList) (hm : env.mirrorFlag = true) :
    remoteNameOf r.destination = none ∧ Event.panic ∈ syncEvents env r := by
  have hn := remoteNameOf_eq_none r.destination hd
  refine ⟨hn, ?_⟩
  have hmem : Event.panic ∈ mirrorPhaseEvents env r := by
    obtain ⟨s, a1, a2, a3, a4, a5, a6, a7, mk, w, p1, p2, mf⟩ := env
    cases mf
    · exact Bool.noConfusion hm
    · cases mk <;> simp only [mirrorPhaseEvents, addRemoteEvents, pushEvents, hn]
      · exact List.mem_cons_of_mem _ (List.mem_cons_self _ _)
      · exact List.mem_cons_of_mem _ (List.mem_cons_of_mem _ (List.mem_cons_self _ _))
  exact List.mem_append_right _ hmem

/-- A destination with no '@', as built by `main` from a mapping entry. -/
def repoNoAt : repo :=
  repoOfMap "/cache" { Name := "b", ADO := "ssh://src/b", BitBucket := "ssh://bb/b" }

/-- Witness for C8 at a concrete environment and descriptor. -/
theorem C8_witness :
    ('@' ∉ ("ssh://bb/b" : String).toList) ∧
    (remoteNameOf repoNoAt.destination = none ∧
      Event.panic ∈ syncEvents { envAllOk with mirrorFlag := true } repoNoAt) :=
  ⟨by decide,
    C8_no_at_in_destination_panics { envAllOk with mirrorFlag := true } repoNoAt
      (by decide) rfl⟩

/-! ## C7 -/

@[simp] theorem isPanic_mkdirRemotes (root : String) (ok : Bool) :
    (Event.mkdirRemotes root ok).isPanic = false := rfl

@[simp] theorem isPanic_writeFile (p c : String) (ok : Bool) :
    (Event.writeFile p c ok).isPanic = false := rfl

@[simp] theorem isLog_statMarker (p : String) : (Event.statMarker p).isLog = false := rfl

@[simp] theorem isLog_logCantReuse (p : String) : (Event.logCantReuse p).isLog = true := rfl

@[simp] theorem isLog_logTryingReuse (p : String) : (Event.logTryingReuse p).isLog = true := rfl

@[simp] theorem isLog_logFailedReuse (p : String) : (Event.logFailedReuse p).isLog = true := rfl

@[simp] theorem isLog_removeAll (p : String) (ok : Bool) : (Event.removeAll p ok).isLog = false := rfl

@[simp] theorem isLog_ctxAcquire (n : Nat) : (Event.ctxAcquire n).isLog = false := rfl

@[simp] theorem isLog_ctxCancel : Event.ctxCancel.isLog = false := rfl

@[simp] theorem isLog_logCloning (a b : String) : (Event.logCloning a b).isLog = true := rfl

@[simp] theorem isLog_cloneStart (a b : String) : (Event.cloneStart a b).isLog = false := rfl

@[simp] theorem isLog_logCloneStartErr (a : String) : (Event.logCloneStartErr a).isLog = true := rfl

@[simp] theorem isLog_logCloneWaitErr (a : String) : (Event.logCloneWaitErr a).isLog = true := rfl

@[simp] theorem isLog_logFetching (a b : String) : (Event.logFetching a b).isLog = true := rfl

@[simp] theorem isLog_fetchStart (a : String) : (Event.fetchStart a).isLog = false := rfl

@[simp] theorem isLog_logFetchStartErr (a : String) : (Event.logFetchStartErr a).isLog = true := rfl

@[simp] theorem isLog_logFetchWaitErr (a : String) : (Event.logFetchWaitErr a).isLog = true := rfl

@[simp] theorem isLog_mkdirRemotes (a : String) (ok : Bool) : (Event.mkdirRemotes a ok).isLog = false := rfl

@[simp] theorem isLog_writeFile (a b : String) (ok : Bool) : (Event.writeFile a b ok).isLog = false := rfl

@[simp] theorem isLog_logPushing (a b : String) : (Event.logPushing a b).isLog = true := rfl

@[simp] theorem isLog_pushStart (a b : String) : (Event.pushStart a b).isLog = false := rfl

@[simp] theorem isLog_logPushStartErr (a : String) : (Event.logPushStartErr a).isLog = true := rfl

@[simp] theorem isLog_logPushWaitErr (a : String) : (Event.logPushWaitErr a).isLog = true := rfl

@[simp] theorem isLog_panic : Event.panic.isLog = false := rfl

/-- An environment in which the cache deletion and the registration-file
write both fail (marker absent, mirroring on, everything else succeeding). -/
def envFsFail : SyncEnv :=
  { envAllOk with
    statOk := false
    removeAllErr := true
    writeErr := true
    mirrorFlag := true }

/-- The same run with the two filesystem operations succeeding. -/
def envFsOk : SyncEnv :=
  { envAllOk with statOk := false, mirrorFlag := true }

/-- C7: the claim says filesystem deletion and write failures are logged
with repository and stage context. In a run where `os.RemoveAll` and
`ioutil.WriteFile` both fail (the deletion failure is witnessed by the
`removeAll _ false` event in the trace), the log stream is identical to
that of the run where both succeed: these failures are discarded
(`os.RemoveAll(r.root)`'s and `ioutil.WriteFile(...)`'s results are not
examined) and never logged. -/
theorem C7_fs_failures_invisible_in_logs :
    envFsFail.removeAllErr = true ∧ envFsFail.writeErr = true ∧
    Event.removeAll repoA.root false ∈ syncEvents envFsFail repoA ∧
    logsOf (syncEvents envFsFail repoA) = logsOf (syncEvents envFsOk repoA) := by
  decide

@[simp] theorem isPanic_panic : Event.panic.isPanic = true := rfl

theorem mem_syncEvents_of_mem_reuse {e : Event} (env : SyncEnv) (r : repo)
    (h : e ∈ reusePhaseEvents env r) : e ∈ syncEvents env r :=
  List.mem_append_left _ (List.mem_append_left _ (List.mem_append_left _ h))

theorem mem_syncEvents_of_mem_branch {e : Event} (env : SyncEnv) (r : repo)
    (h : e ∈ branchPhaseEvents env r) : e ∈ syncEvents env r :=
  List.mem_append_left _ (List.mem_append_left _ (List.mem_append_right _ h))

theorem mem_syncEvents_of_mem_mainFetch {e : Event} (env : SyncEnv) (r : repo)
    (h : e ∈ (fetchEvents env.mainFetchStartErr env.mainFetchWaitErr r).1) :
    e ∈ syncEvents env r :=
  List.mem_append_left _ (List.mem_append_right _ h)

theorem mem_syncEvents_of_mem_mirror {e : Event} (env : SyncEnv) (r : repo)
    (h : e ∈ mirrorPhaseEvents env r) : e ∈ syncEvents env r :=
  List.mem_append_right _ h

/-- With a well-formed destination and mirroring on, `addRemote` does not
panic and `push` runs after it. -/
theorem mirrorPhase_eq_append (env : SyncEnv) (r : repo) (n : String)
    (hn : remoteNameOf r.destination = some n) (hm : env.mirrorFlag = true) :
    mirrorPhaseEvents env r = addRemoteEvents env r ++ pushEvents env r := by
  cases hmk : env.mkdirErr <;>
    simp [mirrorPhaseEvents, andThen, addRemoteEvents, hm, hmk, hn]

theorem logsOf_indep_removeAllErr (env : SyncEnv) (x y : Bool) (r : repo) :
    logsOf (syncEvents { env with removeAllErr := x } r) =
    logsOf (syncEvents { env with removeAllErr := y } r) := by
  simp only [syncEvents, logsOf, List.filter_append]
  have hb : (branchPhaseEvents { env with removeAllErr := x } r).filter
        Event.isLog =
      (branchPhaseEvents { env with removeAllErr := y } r).filter
        Event.isLog := by
    cases hs : env.statOk <;> simp [branchPhaseEvents, reuseDecision, hs]
  rw [hb]; rfl

theorem logsOf_indep_writeErr (env : SyncEnv) (x y : Bool) (r : repo) :
    logsOf (syncEvents { env with writeErr := x } r) =
    logsOf (syncEvents { env with writeErr := y } r) := by
  simp only [syncEvents, logsOf, List.filter_append]
  have hm : (mirrorPhaseEvents { env with writeErr := x } r).filter
        Event.isLog =
      (mirrorPhaseEvents { env with writeErr := y } r).filter
        Event.isLog := by
    cases hmf : env.mirrorFlag <;> cases hmk : env.mkdirErr <;>
      rcases hn : remoteNameOf r.destination with _ | n <;>
      simp [mirrorPhaseEvents, andThen, addRemoteEvents, pushEvents, hmf, hmk, hn]
  rw [hm]; rfl

theorem logsOf_indep_mkdirErr (env : SyncEnv) (x y : Bool) (r : repo)
    (n : String) (hn : remoteNameOf r.destination = some n) :
    logsOf (syncEvents { env with mkdirErr := x } r) =
    logsOf (syncEvents { env with mkdirErr := y } r) := by
  simp only [syncEvents, logsOf, List.filter_append]
  have hm : (mirrorPhaseEvents { env with mkdirErr := x } r).filter
        Event.isLog =
      (mirrorPhaseEvents { env with mkdirErr := y } r).filter
        Event.isLog := by
    cases hmf : env.mirrorFlag <;> cases x <;> cases y <;>
      simp [mirrorPhaseEvents, andThen, addRemoteEvents, pushEvents, hmf, hn]
  rw [hm]; rfl

/-- C7 (amended): subprocess errors — start failure and non-zero exit of
the probe fetch, of the clone, of the unconditional fetch, and of the push
— are each logged with the repository name, and every failure is non-fatal:
the unconditional fetch always runs, and with mirroring on the push is
still attempted whatever failed before it. Filesystem failures, by
contrast, are silent: a failing `os.RemoveAll`, `ioutil.WriteFile` or
`os.MkdirAll` leaves the log stream exactly as in the corresponding
successful run. -/
theorem C7_amended_error_logging (env : SyncEnv) (r : repo) (n : String)
    (hn : remoteNameOf r.destination = some n) :
    (env.statOk = true → env.probeFetchStartErr = true →
      Event.logFetchStartErr r.name ∈ syncEvents env r) ∧
    (env.statOk = true → env.probeFetchStartErr = false →
      env.probeFetchWaitErr = true →
      Event.logFetchWaitErr r.name ∈ syncEvents env r) ∧
    (env.statOk = false → env.cloneStartErr = true →
      Event.logCloneStartErr r.name ∈ syncEvents env r) ∧
    (env.statOk = false → env.cloneWaitErr = true →
      Event.logCloneWaitErr r.name ∈ syncEvents env r) ∧
    (env.mainFetchStartErr = true →
      Event.logFetchStartErr r.name ∈ syncEvents env r) ∧
    (env.mainFetchStartErr = false → env.mainFetchWaitErr = true →
      Event.logFetchWaitErr r.name ∈ syncEvents env r) ∧
    (env.mirrorFlag = true → env.pushStartErr = true →
      Event.logPushStartErr r.name ∈ syncEvents env r) ∧
    (env.mirrorFlag = true → env.pushWaitErr = true →
      Event.logPushWaitErr r.name ∈ syncEvents env r) ∧
    Event.fetchStart r.root ∈ syncEvents env r ∧
    (env.mirrorFlag = true →
      Event.pushStart r.root n ∈ syncEvents env r) ∧
    logsOf (syncEvents { env with removeAllErr := true } r) =
      logsOf (syncEvents { env with removeAllErr := false } r) ∧
    logsOf (syncEvents { env with writeErr := true } r) =
      logsOf (syncEvents { env with writeErr := false } r) ∧
    logsOf (syncEvents { env with mkdirErr := true } r) =
      logsOf (syncEvents { env with mkdirErr := false } r) := by
  refine ⟨?_, ?_, ?_, ?_, ?_, ?_, ?_, ?_, ?_, ?_,
    logsOf_indep_removeAllErr env true false r,
    logsOf_indep_writeErr env true false r,
    logsOf_indep_mkdirErr env true false r n hn⟩
  · intro hs h1
    refine mem_syncEvents_of_mem_reuse env r ?_
    simp [reusePhaseEvents, fetchEvents, hs, h1]
  · intro hs h1 h2
    refine mem_syncEvents_of_mem_reuse env r ?_
    simp [reusePhaseEvents, fetchEvents, hs, h1, h2]
  · intro hs h4
    refine mem_syncEvents_of_mem_branch env r ?_
    simp [branchPhaseEvents, reuseDecision, cloneEvents, hs, h4]
  · intro hs h5
    refine mem_syncEvents_of_mem_branch env r ?_
    simp [branchPhaseEvents, reuseDecision, cloneEvents, hs, h5]
  · intro h6
    refine mem_syncEvents_of_mem_mainFetch env r ?_
    simp [fetchEvents, h6]
  · intro h6 h7
    refine mem_syncEvents_of_mem_mainFetch env r ?_
    simp [fetchEvents, h6, h7]
  · intro hmf hp
    refine mem_syncEvents_of_mem_mirror env r ?_
    rw [mirrorPhase_eq_append env r n hn hmf]
    refine List.mem_append_right _ ?_
    simp only [pushEvents, hn]
    simp [hp]
  · intro hmf hp
    refine mem_syncEvents_of_mem_mirror env r ?_
    rw [mirrorPhase_eq_append env r n hn hmf]
    refine List.mem_append_right _ ?_
    simp only [pushEvents, hn]
    simp [hp]
  · refine mem_syncEvents_of_mem_mainFetch env r ?_
    simp [fetchEvents]
  · intro hmf
    refine mem_syncEvents_of_mem_mirror env r ?_
    rw [mirrorPhase_eq_append env r n hn hmf]
    refine List.mem_append_right _ ?_
    simp only [pushEvents, hn]
    simp

/-- Witness for C7's amended claim at a concrete environment where every
subprocess stage fails. -/
theorem C7_amended_witness :
    remoteNameOf repoA.destination = some "bb" ∧
    (let env : SyncEnv :=
      { statOk := false, probeFetchStartErr := false, probeFetchWaitErr := false
        removeAllErr := true, cloneStartErr := true, cloneWaitErr := true
        mainFetchStartErr := false, mainFetchWaitErr := true
        mkdirErr := false, writeErr := true
        pushStartErr := true, pushWaitErr := true, mirrorFlag := true }
     Event.logCloneStartErr repoA.name ∈ syncEvents env repoA ∧
      Event.logCloneWaitErr repoA.name ∈ syncEvents env repoA ∧
      Event.logFetchWaitErr repoA.name ∈ syncEvents env repoA ∧
      Event.logPushStartErr repoA.name ∈ syncEvents env repoA ∧
      Event.logPushWaitErr repoA.name ∈ syncEvents env repoA ∧
      Event.fetchStart repoA.root ∈ syncEvents env repoA ∧
      Event.pushStart repoA.root "bb" ∈ syncEvents env repoA ∧
      logsOf (syncEvents { env with removeAllErr := true } repoA) =
        logsOf (syncEvents { env with removeAllErr := false } repoA)) := by
  refine ⟨by decide, ?_, ?_, ?_, ?_, ?_, ?_, ?_, ?_⟩
  · exact (C7_amended_error_logging _ repoA "bb" (by decide)).2.2.1 rfl rfl
  · exact (C7_amended_error_logging _ repoA "bb" (by decide)).2.2.2.1 rfl rfl
  · exact (C7_amended_error_logging _ repoA "bb" (by decide)).2.2.2.2.2.1 rfl rfl
  · exact (C7_amended_error_logging _ repoA "bb" (by decide)).2.2.2.2.2.2.1 rfl rfl
  · exact (C7_amended_error_logging _ repoA "bb" (by decide)).2.2.2.2.2.2.2.1 rfl rfl
  · exact (C7_amended_error_logging _ repoA "bb" (by decide)).2.2.2.2.2.2.2.2.1
  · exact (C7_amended_error_logging _ repoA "bb" (by decide)).2.2.2.2.2.2.2.2.2.1 rfl
  · exact (C7_amended_error_logging _ repoA "bb" (by decide)).2.2.2.2.2.2.2.2.2.2.1

/-! ## C5 -/

/-- The environment of the concrete scenario: empty cache (marker absent),
every external operation succeeding, mirroring enabled. -/
def envScenario : SyncEnv := { envAllOk with statOk := false, mirrorFlag := true }

/-- The scenario descriptor `{name: "a", source: "ssh://src/a",
dest: "git@bb:org/a"}` as built by `main`. -/
def scenarioRepo (cacheRoot : String) : repo :=
  repoOfMap cacheRoot { Name := "a", ADO := "ssh://src/a", BitBucket := "git@bb:org/a" }

/-- C5: in the mirroring scenario with destination `git@bb:org/a`, the
remote name derived by splitting on '@' then on ':' is `bb`; the
registration file is written at `Join(root, "remotes", "bb")` (i.e.
`cacheRoot/a/remotes/bb`, `root` being `Join(cacheRoot, "a")`) with
exactly the `URL:`/two-`Push:`-lines content; and the push invocation
uses remote name `bb`. -/
theorem C5_remote_registration_scenario (cacheRoot : String) :
    remoteNameOf "git@bb:org/a" = some "bb" ∧
    Event.writeFile
      (filepathJoin [(scenarioRepo cacheRoot).root, "remotes", "bb"])
      "URL: git@bb:org/a\nPush: +refs/heads/*:refs/heads/*\nPush: +refs/tags/*:refs/tags/*\n"
      true ∈ syncEvents envScenario (scenarioRepo cacheRoot) ∧
    Event.pushStart (scenarioRepo cacheRoot).root "bb" ∈
      syncEvents envScenario (scenarioRepo cacheRoot) := by
  have hdest : (scenarioRepo cacheRoot).destination = "git@bb:org/a" := rfl
  have hn : remoteNameOf (scenarioRepo cacheRoot).destination = some "bb" := by
    rw [hdest]; decide
  refine ⟨by decide, ?_, ?_⟩
  · refine mem_syncEvents_of_mem_mirror _ _ ?_
    rw [mirrorPhase_eq_append _ _ "bb" hn rfl]
    refine List.mem_append_left _ ?_
    simp only [addRemoteEvents, envScenario, envAllOk, hn]
    simp only [hdest]
    simp
  · refine mem_syncEvents_of_mem_mirror _ _ ?_
    rw [mirrorPhase_eq_append _ _ "bb" hn rfl]
    refine List.mem_append_right _ ?_
    simp only [pushEvents, hn]
    simp

/-! ## C9 -/

/-- C9: the claim says distinct names give distinct local roots. Two
mapping entries with distinct names ("b" and "b/") get the same cache
root, because `filepath.Join` cleans the joined path. -/
theorem C9_distinct_names_same_root :
    ({ Name := "b", ADO := "s1", BitBucket := "d1" } : RepoMap).Name ≠
      ({ Name := "b/", ADO := "s2", BitBucket := "d2" } : RepoMap).Name ∧
    (repoOfMap "c" { Name := "b", ADO := "s1", BitBucket := "d1" }).root =
      (repoOfMap "c" { Name := "b/", ADO := "s2", BitBucket := "d2" }).root := by
  decide

/-- A name that survives path cleaning as one whole element: nonempty,
without '/', and neither "." nor "..". -/
def simpleName (n : String) : Prop :=
  n ≠ "" ∧ '/' ∉ n.toList ∧ n ≠ "." ∧ n ≠ ".."

theorem string_eq_of_data_eq {s t : String} (h : s.data = t.data) : s = t := by
  cases s; cases t; exact congrArg String.mk h

theorem cleanStep_not_special (rooted : Bool) (acc : List (List Char))
    (p : List Char) (h1 : p ≠ []) (h2 : p ≠ ['.']) (h3 : p ≠ ['.', '.']) :
    cleanStep rooted acc p = p :: acc := by
  unfold cleanStep
  rw [if_neg ?_, if_neg h3]
  rintro (h | h)
  · exact h1 h
  · exact h2 h

theorem cleanParts_concat (rooted : Bool) (ps : List (List Char)) (p : List Char)
    (h1 : p ≠ []) (h2 : p ≠ ['.']) (h3 : p ≠ ['.', '.']) :
    cleanParts rooted (ps ++ [p]) = cleanParts rooted ps ++ [p] := by
  unfold cleanParts
  rw [List.foldl_append]
  simp only [List.foldl_cons, List.foldl_nil]
  rw [cleanStep_not_special rooted _ p h1 h2 h3]
  simp

theorem cleanStep_sepFree (rooted : Bool) (acc : List (List Char))
    (p : List Char) (hacc : ∀ q ∈ acc, '/' ∉ q) (hp : '/' ∉ p) :
    ∀ x ∈ cleanStep rooted acc p, '/' ∉ x := by
  intro x hx
  unfold cleanStep at hx
  by_cases h1 : p = [] ∨ p = ['.']
  · rw [if_pos h1] at hx
    exact hacc x hx
  · rw [if_neg h1] at hx
    by_cases h2 : p = ['.', '.']
    · rw [if_pos h2] at hx
      cases acc with
      | nil =>
        simp only [dotdotStep] at hx
        cases rooted with
        | false =>
          simp at hx
          subst hx
          decide
        | true => simp at hx
      | cons a rest =>
        simp only [dotdotStep] at hx
        by_cases h3 : a = ['.', '.']
        · rw [if_pos h3] at hx
          rcases List.mem_cons.mp hx with rfl | hx
          · decide
          · exact hacc x hx
        · rw [if_neg h3] at hx
          exact hacc x (List.mem_cons_of_mem a hx)
    · rw [if_neg h2] at hx
      rcases List.mem_cons.mp hx with rfl | hx
      · exact hp
      · exact hacc x hx

theorem foldl_cleanStep_sepFree (rooted : Bool) (ps : List (List Char)) :
    ∀ acc : List (List Char), (∀ q ∈ acc, '/' ∉ q) → (∀ q ∈ ps, '/' ∉ q) →
    ∀ x ∈ ps.foldl (cleanStep rooted) acc, '/' ∉ x := by
  induction ps with
  | nil => intro acc hacc _ x hx; exact hacc x hx
  | cons p t ih =>
    intro acc hacc hps x hx
    simp only [List.foldl_cons] at hx
    exact ih (cleanStep rooted acc p)
      (cleanStep_sepFree rooted acc p hacc (hps p (List.mem_cons_self p t)))
      (fun q hq => hps q (List.mem_cons_of_mem p hq)) x hx

theorem cleanParts_sepFree (rooted : Bool) (ps : List (List Char))
    (hps : ∀ q ∈ ps, '/' ∉ q) : ∀ x ∈ cleanParts rooted ps, '/' ∉ x := by
  intro x hx
  unfold cleanParts at hx
  rw [List.mem_reverse] at hx
  exact foldl_cleanStep_sepFree rooted ps [] (by simp) hps x hx

theorem splitOnChar_cons_self (c : Char) (m : List Char) :
    splitOnChar c (c :: m) = [] :: splitOnChar c m := by
  simp [splitOnChar]

/-- `Clean` of a simple relative name is the name itself. -/
theorem cleanList_simple (nl : List Char) (hnl : nl ≠ []) (hnd : nl ≠ ['.'])
    (hndd : nl ≠ ['.', '.']) (hfree : '/' ∉ nl) : cleanList nl = nl := by
  have hr : ¬nl.head? = some '/' := by
    cases nl with
    | nil => exact absurd rfl hnl
    | cons a l' =>
      intro he
      simp only [List.head?, Option.some.injEq] at he
      subst he
      exact hfree (List.mem_cons_self _ _)
  have hcp : cleanParts false (splitOnChar '/' nl) = [nl] := by
    rw [splitOnChar_of_not_mem '/' nl hfree]
    unfold cleanParts
    simp only [List.foldl_cons, List.foldl_nil]
    rw [cleanStep_not_special false [] nl hnl hnd hndd]
    rfl
  unfold cleanList
  rw [if_neg hnl, if_neg hr, hcp, if_neg (by simp)]
  rfl

/-- The last '/'-separated segment of `Clean (cl ++ "/" ++ nl)` is `nl`,
for a simple final element `nl`. -/
theorem getLast_splitOnChar_cleanList (cl nl : List Char)
    (hnl : nl ≠ []) (hnd : nl ≠ ['.']) (hndd : nl ≠ ['.', '.'])
    (hfree : '/' ∉ nl) :
    (splitOnChar '/' (cleanList (cl ++ '/' :: nl))).getLast? = some nl := by
  have hne : cl ++ '/' :: nl ≠ [] := by simp
  have hparts : splitOnChar '/' (cl ++ '/' :: nl) =
      splitOnChar '/' cl ++ [nl] := by
    rw [splitOnChar_append, splitOnChar_of_not_mem '/' nl hfree]
  have hfreeQ : ∀ b : Bool, ∀ q ∈ cleanParts b (splitOnChar '/' cl), '/' ∉ q :=
    fun b => cleanParts_sepFree b _ (not_mem_of_mem_splitOnChar '/' cl)
  have hfreeAll : ∀ b : Bool,
      ∀ q ∈ cleanParts b (splitOnChar '/' cl) ++ [nl], '/' ∉ q := by
    intro b q hq
    rcases List.mem_append.mp hq with hq | hq
    · exact hfreeQ b q hq
    · simp only [List.mem_singleton] at hq; subst hq; exact hfree
  unfold cleanList
  rw [if_neg hne]
  by_cases hh : (cl ++ '/' :: nl).head? = some '/'
  · rw [if_pos hh, hparts, cleanParts_concat true _ _ hnl hnd hndd,
      splitOnChar_cons_self,
      splitOnChar_joinSep '/' _ (by simp) (hfreeAll true)]
    rw [show ([] : List Char) :: (cleanParts true (splitOnChar '/' cl) ++ [nl]) =
      (([] : List Char) :: cleanParts true (splitOnChar '/' cl)) ++ [nl] from by simp]
    exact List.getLast?_concat _
  · rw [if_neg hh, hparts, cleanParts_concat false _ _ hnl hnd hndd,
      if_neg (by simp),
      splitOnChar_joinSep '/' _ (by simp) (hfreeAll false)]
    exact List.getLast?_concat _

/-- The last '/'-separated segment of `filepath.Join(c, n)` is `n` itself,
for a simple name `n`. -/
theorem lastSeg_filepathJoin (c n : String) (h : simpleName n) :
    (splitOnChar '/' (filepathJoin [c, n]).toList).getLast? = some n.toList := by
  obtain ⟨h1, h2, h3, h4⟩ := h
  have hnl : n.toList ≠ [] := fun he =>
    h1 (string_eq_of_data_eq (he.trans (by decide)))
  have hnd : n.toList ≠ ['.'] := fun he =>
    h3 (string_eq_of_data_eq (he.trans (by decide)))
  have hndd : n.toList ≠ ['.', '.'] := fun he =>
    h4 (string_eq_of_data_eq (he.trans (by decide)))
  by_cases hc : c = ""
  · subst hc
    have hdw : [("" : String), n].dropWhile (fun e => e = "") = [n] := by
      simp [List.dropWhile, h1]
    have hj : filepathJoin ["", n] = Clean n := by
      unfold filepathJoin
      rw [hdw]
      rfl
    rw [hj]
    show (splitOnChar '/' (cleanList n.toList)).getLast? = some n.toList
    rw [cleanList_simple n.toList hnl hnd hndd h2,
      splitOnChar_of_not_mem '/' n.toList h2]
    rfl
  · have hdw : [c, n].dropWhile (fun e => e = "") = [c, n] := by
      simp [List.dropWhile, hc]
    have hj : filepathJoin [c, n] = Clean (c ++ "/" ++ n) := by
      unfold filepathJoin
      rw [hdw]
      rfl
    have hdata : (c ++ "/" ++ n).toList = c.toList ++ '/' :: n.toList := by
      show (c ++ "/" ++ n).data = c.data ++ '/' :: n.data
      rw [String.data_append, String.data_append]
      simp
    rw [hj]
    show (splitOnChar '/' (cleanList (c ++ "/" ++ n).toList)).getLast? =
      some n.toList
    rw [hdata]
    exact getLast_splitOnChar_cleanList c.toList n.toList hnl hnd hndd h2

/-- C9 (amended): each descriptor's `root` is `filepath.Join(cacheDir,
name)`, deterministic in those two inputs; and for names that path
cleaning keeps whole — nonempty, slash-free, not "." or ".." — equal
roots force equal names. (For other names distinctness can be lost:
see the "b" / "b/" collision.) -/
theorem C9_amended_root_deterministic_and_injective (cacheDir : String)
    (r1 r2 : RepoMap) (h1 : simpleName r1.Name) (h2 : simpleName r2.Name)
    (heq : (repoOfMap cacheDir r1).root = (repoOfMap cacheDir r2).root) :
    (repoOfMap cacheDir r1).root = filepathJoin [cacheDir, r1.Name] ∧
    r1.Name = r2.Name := by
  refine ⟨rfl, ?_⟩
  have e1 := lastSeg_filepathJoin cacheDir r1.Name h1
  have e2 := lastSeg_filepathJoin cacheDir r2.Name h2
  have heq' : filepathJoin [cacheDir, r1.Name] = filepathJoin [cacheDir, r2.Name] :=
    heq
  rw [heq'] at e1
  rw [e2] at e1
  exact string_eq_of_data_eq (Option.some.injEq _ _ ▸ e1).symm

/-- Witness for C9's amended claim at concrete inputs. -/
theorem C9_amended_witness :
    simpleName "x" ∧
    ((repoOfMap "c" { Name := "x", ADO := "s", BitBucket := "d" }).root =
        filepathJoin ["c", "x"] ∧
      ("x" : String) = "x") :=
  ⟨⟨by decide, by decide, by decide, by decide⟩,
    C9_amended_root_deterministic_and_injective "c"
      { Name := "x", ADO := "s", BitBucket := "d" }
      { Name := "x", ADO := "s", BitBucket := "d" }
      ⟨by decide, by decide, by decide, by decide⟩
      ⟨by decide, by decide, by decide, by decide⟩ rfl⟩

end Gitmirror
